import Mathlib

/-!
Shallow embedding of the `spm` process manager (`src/index.ts`) and proofs
about its specified behaviour.

Conventions of the embedding:
* JavaScript strings are Lean `String` (a wrapper around `List Char`).
* JavaScript numbers that hold process ids, sizes, timestamps and instance
  indices are modelled as `Nat`/`Int` (the program never exercises float
  precision limits in the claims under study).
* The on-disk PID / log directories are association lists from file name to
  file content (respectively to a `size × mtime` pair); every command run
  re-reads them, mirroring the filesystem-as-database design.
* OS interaction (`process.kill`, `spawn`) is passed in as an explicit
  oracle, e.g. `os : Int → SigResult` giving the outcome of signalling a pid.
-/

namespace Spm

/-- Decimal digit test, mirroring the regex class `\d` on ASCII input. -/
def isDigitChar (c : Char) : Bool := 48 ≤ c.toNat && c.toNat ≤ 57

/-- ASCII whitespace, the part of JavaScript's `parseInt` trimming that is
relevant to the program's inputs. -/
def isWsChar (c : Char) : Bool := c == ' ' || c == '\t' || c == '\n' || c == '\r'

/-- The decimal digit character for `n < 10` (JS number-to-string building block). -/
def digitChar (n : Nat) : Char := Char.ofNat (48 + n)

/-- Numeric value of a digit string (most significant first). -/
def digitsVal (cs : List Char) : Nat :=
  cs.foldl (fun a c => a * 10 + (c.toNat - 48)) 0

/-- Fuel-driven decimal rendering; `fuel > n` suffices. -/
def natToDigitsAux : Nat → Nat → List Char → List Char
  | 0, _, acc => acc
  | fuel + 1, n, acc =>
    if n < 10 then digitChar n :: acc
    else natToDigitsAux fuel (n / 10) (digitChar (n % 10) :: acc)

/-- Decimal digits of `n`, most significant first. -/
def natToDigits (n : Nat) : List Char := natToDigitsAux (n + 1) n []

/-- JavaScript's rendering of a nonnegative number via string interpolation
or `.toString()`. -/
def natToString (n : Nat) : String := ⟨natToDigits n⟩

/-- JavaScript's rendering of a (possibly negative) integer. -/
def intToString : Int → String
  | Int.ofNat n => natToString n
  | Int.negSucc n => "-" ++ natToString (n + 1)

theorem digitChar_toNat {n : Nat} (h : n < 10) : (digitChar n).toNat = 48 + n := by
  interval_cases n <;> decide

theorem isDigitChar_digitChar {n : Nat} (h : n < 10) : isDigitChar (digitChar n) = true := by
  interval_cases n <;> decide

theorem natToDigitsAux_eq (n : Nat) : ∀ fuel acc, n < fuel →
    natToDigitsAux fuel n acc = natToDigits n ++ acc := by
  induction n using Nat.strong_induction_on with
  | _ n ih =>
    intro fuel acc hfuel
    match fuel with
    | 0 => omega
    | fuel + 1 =>
      by_cases h10 : n < 10
      · simp [natToDigitsAux, h10, natToDigits]
      · have hdiv : n / 10 < n := Nat.div_lt_self (by omega) (by omega)
        have hdivfuel : n / 10 < fuel := by omega
        have hstep : natToDigitsAux (fuel + 1) n acc
            = natToDigitsAux fuel (n / 10) (digitChar (n % 10) :: acc) := by
          simp [natToDigitsAux, h10]
        rw [hstep, ih (n / 10) hdiv fuel _ hdivfuel]
        have hself : natToDigits n = natToDigits (n / 10) ++ [digitChar (n % 10)] := by
          have : natToDigits n = natToDigitsAux n (n / 10) [digitChar (n % 10)] := by
            simp [natToDigits, natToDigitsAux, h10]
          rw [this, ih (n / 10) hdiv n _ (by omega)]
        rw [hself, List.append_assoc]
        rfl

theorem natToDigits_ne_nil (n : Nat) : natToDigits n ≠ [] := by
  by_cases h10 : n < 10
  · simp [natToDigits, natToDigitsAux, h10]
  · have : natToDigits n = natToDigitsAux n (n / 10) [digitChar (n % 10)] := by
      simp [natToDigits, natToDigitsAux, h10]
    rw [this, natToDigitsAux_eq _ _ _ (by
      have : n / 10 < n := Nat.div_lt_self (by omega) (by omega)
      omega)]
    simp

theorem natToDigits_all_digit (n : Nat) : ∀ c ∈ natToDigits n, isDigitChar c = true := by
  induction n using Nat.strong_induction_on with
  | _ n ih =>
    by_cases h10 : n < 10
    · intro c hc
      simp [natToDigits, natToDigitsAux, h10] at hc
      subst hc
      exact isDigitChar_digitChar h10
    · have hdiv : n / 10 < n := Nat.div_lt_self (by omega) (by omega)
      have hself : natToDigits n = natToDigits (n / 10) ++ [digitChar (n % 10)] := by
        have : natToDigits n = natToDigitsAux n (n / 10) [digitChar (n % 10)] := by
          simp [natToDigits, natToDigitsAux, h10]
        rw [this, natToDigitsAux_eq _ _ _ (by omega)]
      rw [hself]
      intro c hc
      rcases List.mem_append.mp hc with h | h
      · exact ih (n / 10) hdiv c h
      · simp at h
        subst h
        exact isDigitChar_digitChar (Nat.mod_lt _ (by omega))

theorem digitsVal_append_single (cs : List Char) (c : Char) :
    digitsVal (cs ++ [c]) = digitsVal cs * 10 + (c.toNat - 48) := by
  simp [digitsVal, List.foldl_append]

theorem digitsVal_natToDigits (n : Nat) : digitsVal (natToDigits n) = n := by
  induction n using Nat.strong_induction_on with
  | _ n ih =>
    by_cases h10 : n < 10
    · simp [natToDigits, natToDigitsAux, h10, digitsVal, digitChar_toNat h10]
    · have hdiv : n / 10 < n := Nat.div_lt_self (by omega) (by omega)
      have hself : natToDigits n = natToDigits (n / 10) ++ [digitChar (n % 10)] := by
        have : natToDigits n = natToDigitsAux n (n / 10) [digitChar (n % 10)] := by
          simp [natToDigits, natToDigitsAux, h10]
        rw [this, natToDigitsAux_eq _ _ _ (by omega)]
      rw [hself, digitsVal_append_single, ih (n / 10) hdiv,
        digitChar_toNat (Nat.mod_lt _ (by omega))]
      omega

theorem isDigitChar_not_ws {c : Char} (h : isDigitChar c = true) : isWsChar c = false := by
  cases hw : isWsChar c
  · rfl
  · exfalso
    simp only [isWsChar, Bool.or_eq_true, beq_iff_eq] at hw
    rcases hw with ((hc | hc) | hc) | hc <;> (subst hc; exact absurd h (by decide))

theorem isDigitChar_ne_minus {c : Char} (h : isDigitChar c = true) : c ≠ '-' := by
  intro hc
  subst hc
  simp [isDigitChar] at h

theorem isDigitChar_ne_plus {c : Char} (h : isDigitChar c = true) : c ≠ '+' := by
  intro hc
  subst hc
  simp [isDigitChar] at h

theorem dropWhile_of_head_false {p : Char → Bool} :
    ∀ {l : List Char}, (∀ c ∈ l, p c = false) → l.dropWhile p = l
  | [], _ => rfl
  | c :: cs, h => by
    simp [List.dropWhile, h c (by simp)]

theorem takeWhile_of_all {p : Char → Bool} :
    ∀ {l : List Char}, (∀ c ∈ l, p c = true) → l.takeWhile p = l
  | [], _ => rfl
  | c :: cs, h => by
    simp only [List.takeWhile, h c (by simp), List.cons.injEq, true_and]
    exact takeWhile_of_all (fun c hc => h c (by simp [hc]))

/-! ### Generic string helpers (used for file-name matching) -/

/-- Boolean list-prefix test (own definition for proof control). -/
def isPrefixL : List Char → List Char → Bool
  | [], _ => true
  | _ :: _, [] => false
  | a :: as, b :: bs => a == b && isPrefixL as bs

/-- `String.startsWith`, as the program uses it on file names. -/
def strStartsWith (s p : String) : Bool := isPrefixL p.data s.data

/-- `String.endsWith`, as the program uses it on file names. -/
def strEndsWith (s p : String) : Bool := isPrefixL p.data.reverse s.data.reverse

/-- `file.split('_')[0]`: everything before the first underscore (the whole
string when it has no underscore). -/
def baseAppOf (file : String) : String := ⟨file.data.takeWhile (fun c => c != '_')⟩

theorem isPrefixL_refl : ∀ l : List Char, isPrefixL l l = true
  | [] => rfl
  | c :: cs => by simp [isPrefixL, isPrefixL_refl cs]

theorem isPrefixL_append (l m : List Char) : isPrefixL l (l ++ m) = true := by
  induction l with
  | nil => rfl
  | cons c cs ih => simp [isPrefixL, ih]

theorem data_append (s t : String) : (s ++ t).data = s.data ++ t.data := rfl

theorem string_ext {s t : String} (h : s.data = t.data) : s = t := by
  cases s; cases t; exact congrArg String.mk h

theorem strEndsWith_append (s t : String) : strEndsWith (s ++ t) t = true := by
  simp only [strEndsWith, data_append, List.reverse_append]
  exact isPrefixL_append _ _

/-! ### JavaScript `Number.parseInt(s, 10)` -/

/-- Longest decimal-digit run at the front of `cs`, or `none` if there is none. -/
def parseDigitsPre (cs : List Char) : Option Nat :=
  let ds := cs.takeWhile isDigitChar
  if ds.isEmpty then none else some (digitsVal ds)

/-- `Number.parseInt(s, 10)`: skip leading whitespace, optional sign, then the
longest digit run; `none` models `NaN`. -/
def parseIntJS (s : String) : Option Int :=
  match s.data.dropWhile isWsChar with
  | [] => none
  | c :: rest =>
    if c = '-' then (parseDigitsPre rest).map (fun k : Nat => -(k : Int))
    else if c = '+' then (parseDigitsPre rest).map (fun k : Nat => (k : Int))
    else (parseDigitsPre (c :: rest)).map (fun k : Nat => (k : Int))

theorem parseIntJS_natToString (n : Nat) : parseIntJS (natToString n) = some (n : Int) := by
  have hall := natToDigits_all_digit n
  have hne := natToDigits_ne_nil n
  have hdata : (natToString n).data = natToDigits n := rfl
  have hdrop : (natToDigits n).dropWhile isWsChar = natToDigits n :=
    dropWhile_of_head_false (fun c hc => isDigitChar_not_ws (hall c hc))
  rw [parseIntJS, hdata, hdrop]
  match hd : natToDigits n with
  | [] => exact absurd hd hne
  | c :: rest =>
    have hc : isDigitChar c = true := hall c (by rw [hd]; simp)
    show (if c = '-' then (parseDigitsPre rest).map (fun k : Nat => -(k : Int))
      else if c = '+' then (parseDigitsPre rest).map (fun k : Nat => (k : Int))
      else (parseDigitsPre (c :: rest)).map (fun k : Nat => (k : Int))) = some (n : Int)
    rw [if_neg (isDigitChar_ne_minus hc), if_neg (isDigitChar_ne_plus hc)]
    have htake : (c :: rest).takeWhile isDigitChar = c :: rest := by
      refine takeWhile_of_all (fun x hx => ?_)
      exact hall x (by rw [hd]; exact hx)
    simp only [parseDigitsPre, htake, List.isEmpty_cons, if_neg]
    rw [← hd, digitsVal_natToDigits]
    rfl

theorem natToString_injective : Function.Injective natToString := by
  intro a b h
  have h1 := parseIntJS_natToString a
  rw [h, parseIntJS_natToString b] at h1
  have h2 : (b : Int) = (a : Int) := by simpa using h1
  omega

/-! ### Key-value stores

A JavaScript object (`process.env` merged with an app's `env`) and an on-disk
directory (file name → content) are both modelled as association lists with
a lookup, an overwrite-or-append update (`Object.assign` / `writeFileSync` /
`fs.rename` target), and a removal (`fs.unlink`). -/

section Store

variable {α : Type}

/-- Property / file lookup. -/
def lookupD : List (String × α) → String → Option α
  | [], _ => none
  | e :: es, k => if e.1 = k then some e.2 else lookupD es k

/-- Overwrite an existing key in place, or append a fresh one. -/
def setD : List (String × α) → String → α → List (String × α)
  | [], k, v => [(k, v)]
  | e :: es, k, v => if e.1 = k then (k, v) :: es else e :: setD es k v

/-- Remove a key (`fs.unlink`). -/
def removeD : List (String × α) → String → List (String × α)
  | [], _ => []
  | e :: es, k => if e.1 = k then removeD es k else e :: removeD es k

/-- `fs.rename old new`: move the content of `old` to `new` (replacing any
file already at `new`); no-op when `old` is absent (the real call would
throw, a case our theorems' hypotheses exclude). -/
def renameD (d : List (String × α)) (old new : String) : List (String × α) :=
  match lookupD d old with
  | some v => setD (removeD d old) new v
  | none => d

theorem lookupD_setD (d : List (String × α)) (k k' : String) (v : α) :
    lookupD (setD d k v) k' = if k' = k then some v else lookupD d k' := by
  induction d with
  | nil =>
    by_cases h : k' = k
    · simp [setD, lookupD, h]
    · have : ¬k = k' := fun h' => h h'.symm
      simp [setD, lookupD, h, this]
  | cons e es ih =>
    by_cases he : e.1 = k
    · by_cases h : k' = k
      · simp [setD, lookupD, he, h]
      · have hek' : ¬e.1 = k' := fun hx => h (hx.symm.trans he)
        have hkk' : ¬k = k' := fun hx => h hx.symm
        simp [setD, lookupD, he, h, hek', hkk']
    · by_cases h' : e.1 = k'
      · have : ¬k' = k := fun hk => he (h'.trans hk)
        simp [setD, lookupD, he, h', this]
      · simp [setD, lookupD, he, h', ih]

theorem lookupD_removeD (d : List (String × α)) (k k' : String) :
    lookupD (removeD d k) k' = if k' = k then none else lookupD d k' := by
  induction d with
  | nil => simp [removeD, lookupD]
  | cons e es ih =>
    by_cases he : e.1 = k
    · by_cases h : k' = k
      · subst h
        simp [removeD, lookupD, he, ih]
      · have hek' : ¬e.1 = k' := fun hx => h (hx.symm.trans he)
        have hkk' : ¬k = k' := fun hx => h hx.symm
        simp [removeD, lookupD, he, h, hek', hkk', ih]
    · by_cases h' : e.1 = k'
      · have : ¬k' = k := fun hk => he (h'.trans hk)
        simp [removeD, lookupD, he, h', this]
      · simp [removeD, lookupD, he, h', ih]

theorem lookupD_renameD_old (d : List (String × α)) (old new : String)
    (hne : old ≠ new) : lookupD (renameD d old new) old = none := by
  rw [renameD]
  match h : lookupD d old with
  | some v => rw [lookupD_setD, if_neg hne, lookupD_removeD, if_pos rfl]
  | none => exact h

theorem lookupD_renameD_new (d : List (String × α)) (old new : String) (v : α)
    (h : lookupD d old = some v) : lookupD (renameD d old new) new = some v := by
  rw [renameD, h, lookupD_setD, if_pos rfl]

theorem lookupD_renameD_other (d : List (String × α)) (old new k : String)
    (hk1 : k ≠ old) (hk2 : k ≠ new) : lookupD (renameD d old new) k = lookupD d k := by
  rw [renameD]
  match h : lookupD d old with
  | some v => rw [lookupD_setD, if_neg hk2, lookupD_removeD, if_neg hk1]
  | none => rfl

/-- Under distinct keys, membership pins down the lookup result. -/
theorem lookupD_of_mem {d : List (String × α)} {k : String} {v : α}
    (hnd : (d.map Prod.fst).Nodup) (hm : (k, v) ∈ d) : lookupD d k = some v := by
  induction d with
  | nil => cases hm
  | cons e es ih =>
    simp only [List.map_cons, List.nodup_cons] at hnd
    rcases List.mem_cons.mp hm with h | h
    · subst h
      simp [lookupD]
    · have hne : e.1 ≠ k := by
        intro hk
        exact hnd.1 (hk ▸ List.mem_map_of_mem Prod.fst h)
      simp [lookupD, hne, ih hnd.2 h]

end Store

/-! ### Increment Resolver (`adjustEnv`, src/index.ts lines 109–133) -/

/-- The capture of the regex `^(\D*?)(\d+)$` applied to a value: the value
must consist of a (possibly empty) run of non-digits followed by a nonempty
run of digits; returns (non-digit run, numeric value of the digit run). -/
def regexCapture : List Char → Option (List Char × Nat)
  | [] => none
  | c :: cs =>
    if isDigitChar c then
      if cs.all isDigitChar then some ([], digitsVal (c :: cs)) else none
    else
      (regexCapture cs).map (fun pd => (c :: pd.1, pd.2))

/-- The per-value transform inside `adjustEnv`'s loop: regex match first
(`"port3000" → "port3001"`), else `Number.parseInt` (`"3000" → "3001"`),
else leave the value alone. -/
def adjustVal (val : String) (index : Nat) : String :=
  match regexCapture val.data with
  | some (pre, num) => ⟨pre⟩ ++ natToString (num + index)
  | none =>
    match parseIntJS val with
    | some num => intToString (num + index)
    | none => val

/-- `Object.assign({}, process.env, env)`: declared entries win over the
ambient environment. -/
def mergeEnv (ambient declared : List (String × String)) : List (String × String) :=
  declared.foldl (fun acc e => setD acc e.1 e.2) ambient

/-- One iteration of the `for (const key of incVars)` loop: the listed name
is looked up in the evolving environment and (when present and nonempty —
JS truthiness of `newEnv[key]`) overwritten with its adjusted value. -/
def adjustStep (index : Nat) (acc : List (String × String)) (key : String) :
    List (String × String) :=
  match lookupD acc key with
  | some val => if val = "" then acc else setD acc key (adjustVal val index)
  | none => acc

/-- The whole `for (const key of incVars)` loop. -/
def adjustLoop (env : List (String × String)) (incVars : List String) (index : Nat) :
    List (String × String) :=
  incVars.foldl (adjustStep index) env

/-- `adjustEnv(env, incVars, index)` from src/index.ts. -/
def adjustEnv (ambient declared : List (String × String)) (incVars : List String)
    (index : Nat) : List (String × String) :=
  adjustLoop (mergeEnv ambient declared) incVars index

/-- Number of occurrences of a name in the increment list. -/
def countOcc : List String → String → Nat
  | [], _ => 0
  | k :: ks, key => (if k = key then 1 else 0) + countOcc ks key

/-- "The entire value parses as an integer" — the reading of claim C1's
second branch: an optional sign followed by digits only, nothing else. -/
def parsesEntirelyAsInt (s : String) : Option Int :=
  match s.data with
  | [] => none
  | c :: rest =>
    if c = '-' then
      if rest ≠ [] ∧ rest.all isDigitChar then some (-(digitsVal rest : Int)) else none
    else if c = '+' then
      if rest ≠ [] ∧ rest.all isDigitChar then some ((digitsVal rest : Int)) else none
    else if (c :: rest).all isDigitChar then some ((digitsVal (c :: rest) : Int))
    else none

/-- The per-value transform exactly as claim C1 words it: digit-suffix rule,
else whole-value integer rule, else unchanged. -/
def adjustValClaim (val : String) (index : Nat) : String :=
  match regexCapture val.data with
  | some (pre, num) => ⟨pre⟩ ++ natToString (num + index)
  | none =>
    match parsesEntirelyAsInt val with
    | some num => intToString (num + index)
    | none => val

theorem adjustVal_empty (index : Nat) : adjustVal "" index = "" := rfl

theorem lookupD_adjustStep (index : Nat) (env : List (String × String)) (k key : String) :
    lookupD (adjustStep index env k) key
      = if key = k then Option.map (fun v => adjustVal v index) (lookupD env key)
        else lookupD env key := by
  rcases h : lookupD env k with _ | v
  · simp only [adjustStep, h]
    by_cases hk : key = k
    · subst hk
      simp [h]
    · simp [hk]
  · simp only [adjustStep, h]
    by_cases hv : v = ""
    · subst hv
      simp only [if_pos rfl]
      by_cases hk : key = k
      · subst hk
        simp [h, adjustVal_empty]
      · simp [hk]
    · rw [if_neg hv, lookupD_setD]
      by_cases hk : key = k
      · subst hk
        simp [h]
      · simp [hk]

theorem lookupD_adjustLoop (incVars : List String) (env : List (String × String))
    (index : Nat) (key : String) :
    lookupD (adjustLoop env incVars index) key
      = Option.map ((fun v => adjustVal v index)^[countOcc incVars key])
          (lookupD env key) := by
  induction incVars generalizing env with
  | nil =>
    simp [adjustLoop, countOcc, Option.map_id]
  | cons k ks ih =>
    have hstep : adjustLoop env (k :: ks) index = adjustLoop (adjustStep index env k) ks index :=
      rfl
    rw [hstep, ih, lookupD_adjustStep]
    by_cases hk : key = k
    · rw [if_pos hk, Option.map_map, countOcc, if_pos hk.symm]
      rw [Nat.add_comm 1 (countOcc ks key), Function.iterate_succ]
    · rw [if_neg hk, countOcc, if_neg (fun h => hk h.symm), Nat.zero_add]

/-- Claim C1 (amended): `adjustEnv` returns the declared environment merged
over the ambient one, with each listed name transformed once per occurrence
in the increment list; the per-occurrence transform is the digit-suffix rule,
else the `parseInt`-of-a-leading-integer rule (not "entire value parses"),
else unchanged; absent names add no key.  The spec's concrete examples hold. -/
theorem claim_C1_amended :
    (∀ (ambient declared : List (String × String)) (incVars : List String)
      (index : Nat) (key : String),
      lookupD (adjustEnv ambient declared incVars index) key
        = Option.map ((fun v => adjustVal v index)^[countOcc incVars key])
            (lookupD (mergeEnv ambient declared) key))
    ∧ adjustVal "db7" 2 = "db9"
    ∧ adjustVal "3000" 3 = "3003"
    ∧ (∀ index, adjustVal "staging" index = "staging") := by
  refine ⟨fun ambient declared incVars index key => ?_, by decide, by decide, fun _ => rfl⟩
  rw [adjustEnv, lookupD_adjustLoop]

/-- Claim C1 as stated is false: for merged value `"3000x"` (which does not
end in a digit and does not entirely parse as an integer) the claim demands
the value stay unchanged, but `adjustEnv` applies JavaScript `parseInt`,
which accepts the leading `"3000"`, and stores `"3001"` at index 1. -/
theorem claim_C1_counterexample :
    ¬ (∀ (ambient declared : List (String × String)) (incVars : List String)
        (index : Nat) (key : String),
        lookupD (adjustEnv ambient declared incVars index) key
          = Option.map (fun v => adjustValClaim v index)
              (lookupD (mergeEnv ambient declared) key)) := by
  intro h
  exact absurd (h [] [("PORT", "3000x")] ["PORT"] 1 "PORT") (by decide)

/-! ### Liveness probing (`process.kill`) and the Liveness Registry
(`listApps` inner loop, src/index.ts lines 194–230) -/

/-- Outcome of `process.kill(pid, sig)`: success, "no such process" (ESRCH),
or any other failure (e.g. EPERM). -/
inductive SigResult
  | ok
  | esrch
  | eperm
deriving DecidableEq

/-- The `listApps` PID-file filter:
`file.startsWith(appName + '_') && file.endsWith('.pid')`. -/
def pidFileMatches (appName file : String) : Bool :=
  strStartsWith file (appName ++ "_") && strEndsWith file ".pid"

/-- One iteration of the `for (const file of pidFiles)` loop in `listApps`:
read the PID record, probe with signal 0; on success record the pid as
running, on ANY probe failure unlink the record (best-effort). -/
def listStep (os : Int → SigResult) (st : List Int × List (String × String))
    (fname : String) : List Int × List (String × String) :=
  match lookupD st.2 fname with
  | none => st
  | some content =>
    match parseIntJS content with
    | none => (st.1, removeD st.2 fname)
    | some pid =>
      match os pid with
      | SigResult.ok => (st.1 ++ [pid], st.2)
      | _ => (st.1, removeD st.2 fname)

/-- The per-application scan of the PID directory in `listApps`: returns the
running pids and the PID directory after opportunistic cleanup. -/
def listScan (os : Int → SigResult) (appName : String) (dir : List (String × String)) :
    List Int × List (String × String) :=
  ((dir.map Prod.fst).filter (fun f => pidFileMatches appName f)).foldl (listStep os) ([], dir)

/-- What one scanned record's content becomes on disk: kept exactly when the
probe succeeds. -/
def scanOutcome (os : Int → SigResult) (content : String) : Option String :=
  match parseIntJS content with
  | none => none
  | some pid =>
    match os pid with
    | SigResult.ok => some content
    | _ => none

/-- The running pid a scanned record contributes, if any. -/
def runningOf (os : Int → SigResult) (content : String) : Option Int :=
  match parseIntJS content with
  | none => none
  | some pid =>
    match os pid with
    | SigResult.ok => some pid
    | _ => none

theorem lookupD_listStep_other (os : Int → SigResult) (st : List Int × List (String × String))
    (fname key : String) (hk : key ≠ fname) :
    lookupD (listStep os st fname).2 key = lookupD st.2 key := by
  rcases h : lookupD st.2 fname with _ | c
  · simp [listStep, h]
  · simp only [listStep, h]
    rcases hp : parseIntJS c with _ | pid
    · simp [hp, lookupD_removeD, hk]
    · rcases hos : os pid <;> simp [hp, hos, lookupD_removeD, hk]

theorem listStep_fst (os : Int → SigResult) (st : List Int × List (String × String))
    (fname : String) :
    (listStep os st fname).1 = st.1 ++ ((lookupD st.2 fname).bind (runningOf os)).toList := by
  rcases h : lookupD st.2 fname with _ | c
  · simp [listStep, h]
  · simp only [listStep, h, Option.some_bind]
    rcases hp : parseIntJS c with _ | pid
    · simp [runningOf, hp]
    · rcases hos : os pid <;> simp [runningOf, hp, hos]


theorem listStep_self (os : Int → SigResult) (st : List Int × List (String × String))
    (fname : String) :
    lookupD (listStep os st fname).2 fname = (lookupD st.2 fname).bind (scanOutcome os) := by
  rcases h : lookupD st.2 fname with _ | c
  · simp [listStep, h]
  · simp only [listStep, h, Option.some_bind]
    rcases hp : parseIntJS c with _ | pid
    · simp [scanOutcome, hp, lookupD_removeD]
    · rcases hos : os pid <;> simp [scanOutcome, hp, hos, h, lookupD_removeD]

theorem filterMap_congr {β : Type} {f g : String → Option β} :
    ∀ {l : List String}, (∀ a ∈ l, f a = g a) → l.filterMap f = l.filterMap g
  | [], _ => rfl
  | a :: l, h => by
    rw [List.filterMap_cons, List.filterMap_cons, h a (by simp),
      filterMap_congr (fun x hx => h x (by simp [hx]))]

theorem listFold_lookup_notMem (os : Int → SigResult) :
    ∀ (names : List String) (st : List Int × List (String × String)) (key : String),
    key ∉ names → lookupD (names.foldl (listStep os) st).2 key = lookupD st.2 key := by
  intro names
  induction names with
  | nil => intro st key _; rfl
  | cons n rest ih =>
    intro st key hk
    have hkn : key ≠ n := fun h => hk (by simp [h])
    have hkrest : key ∉ rest := fun h => hk (by simp [h])
    rw [List.foldl_cons, ih _ _ hkrest, lookupD_listStep_other os st n key hkn]

theorem listFold_lookup_mem (os : Int → SigResult) :
    ∀ (names : List String) (st : List Int × List (String × String)) (key : String),
    names.Nodup → key ∈ names →
    lookupD (names.foldl (listStep os) st).2 key = (lookupD st.2 key).bind (scanOutcome os) := by
  intro names
  induction names with
  | nil => intro _ _ _ h; cases h
  | cons n rest ih =>
    intro st key hnd hk
    rw [List.nodup_cons] at hnd
    rw [List.foldl_cons]
    rcases List.mem_cons.mp hk with h | h
    · subst h
      rw [listFold_lookup_notMem os rest _ key hnd.1, listStep_self]
    · have hkn : key ≠ n := fun hq => hnd.1 (hq ▸ h)
      rw [ih _ key hnd.2 h, lookupD_listStep_other os st n key hkn]

theorem listFold_running (os : Int → SigResult) :
    ∀ (names : List String) (st : List Int × List (String × String)),
    names.Nodup →
    (names.foldl (listStep os) st).1
      = st.1 ++ names.filterMap (fun n => (lookupD st.2 n).bind (runningOf os)) := by
  intro names
  induction names with
  | nil => intro st _; simp
  | cons n rest ih =>
    intro st hnd
    rw [List.nodup_cons] at hnd
    rw [List.foldl_cons, ih _ hnd.2]
    have hcongr : ∀ m ∈ rest,
        (lookupD (listStep os st n).2 m).bind (runningOf os)
          = (lookupD st.2 m).bind (runningOf os) := by
      intro m hm
      rw [lookupD_listStep_other os st n m (fun hq => hnd.1 (hq ▸ hm))]
    rw [filterMap_congr hcongr, listStep_fst, List.filterMap_cons]
    rcases hb : (lookupD st.2 n).bind (runningOf os) with _ | pid <;> simp [hb]

/-- Claim C2 as stated is false: a probe failure other than "no such
process" (here EPERM on pid 7) still removes the PID record during listing,
where the claim demands the record be kept. -/
theorem claim_C2_counterexample :
    ¬ (∀ (os : Int → SigResult) (appName : String) (dir : List (String × String))
        (f c : String) (pid : Int), (f, c) ∈ dir → pidFileMatches appName f = true →
        parseIntJS c = some pid → os pid ≠ SigResult.ok → os pid ≠ SigResult.esrch →
        lookupD (listScan os appName dir).2 f = some c) := by
  intro h
  exact absurd
    (h (fun _ => SigResult.eperm) "a" [("a_0.pid", "7")] "a_0.pid" "7" 7
      (by decide) (by decide) (by decide) (by decide) (by decide))
    (by decide)

/-- Claim C2 (amended): during listing, ANY probe failure on a recorded pid
(whether "no such process" or e.g. permission denied) marks the slot stale
and removes the PID record; only a successful probe keeps the record, and
its pid is reported as running.  Records not matching the application's
`<name>_*.pid` pattern are untouched. -/
theorem claim_C2_amended (os : Int → SigResult) (appName : String)
    (dir : List (String × String)) (hnd : (dir.map Prod.fst).Nodup) :
    (∀ f c, (f, c) ∈ dir → pidFileMatches appName f = true →
      lookupD (listScan os appName dir).2 f = scanOutcome os c)
    ∧ (∀ f c, (f, c) ∈ dir → pidFileMatches appName f = false →
      lookupD (listScan os appName dir).2 f = some c)
    ∧ (∀ f c pid, (f, c) ∈ dir → pidFileMatches appName f = true →
      parseIntJS c = some pid → os pid = SigResult.ok →
      pid ∈ (listScan os appName dir).1) := by
  have hndf : ((dir.map Prod.fst).filter (fun f => pidFileMatches appName f)).Nodup :=
    hnd.filter _
  refine ⟨?_, ?_, ?_⟩
  · intro f c hm hmatch
    have hf : f ∈ (dir.map Prod.fst).filter (fun g => pidFileMatches appName g) :=
      List.mem_filter.mpr ⟨List.mem_map_of_mem Prod.fst hm, hmatch⟩
    rw [listScan, listFold_lookup_mem os _ _ f hndf hf, lookupD_of_mem hnd hm,
      Option.some_bind]
  · intro f c hm hmatch
    have hf : f ∉ (dir.map Prod.fst).filter (fun g => pidFileMatches appName g) := by
      intro hin
      rw [List.mem_filter] at hin
      rw [hin.2] at hmatch
      cases hmatch
    rw [listScan, listFold_lookup_notMem os _ _ f hf]
    exact lookupD_of_mem hnd hm
  · intro f c pid hm hmatch hparse hok
    have hf : f ∈ (dir.map Prod.fst).filter (fun g => pidFileMatches appName g) :=
      List.mem_filter.mpr ⟨List.mem_map_of_mem Prod.fst hm, hmatch⟩
    rw [listScan, listFold_running os _ _ hndf]
    refine List.mem_append.mpr (Or.inr ?_)
    refine List.mem_filterMap.mpr ⟨f, hf, ?_⟩
    rw [lookupD_of_mem hnd hm, Option.some_bind]
    simp [runningOf, hparse, hok]

/-- Witness for claim C2's amended theorem: a concrete directory where the
probe says "alive" for pid 7, ESRCH for pid 8; the dead record is removed,
the live and the foreign records are kept, and pid 7 is listed running. -/
theorem claim_C2_amended_witness :
    lookupD (listScan (fun p => if p = 7 then SigResult.ok else SigResult.esrch) "a"
        [("a_0.pid", "7"), ("a_1.pid", "8"), ("b_0.pid", "9")]).2 "a_1.pid" = none
    ∧ lookupD (listScan (fun p => if p = 7 then SigResult.ok else SigResult.esrch) "a"
        [("a_0.pid", "7"), ("a_1.pid", "8"), ("b_0.pid", "9")]).2 "a_0.pid" = some "7"
    ∧ lookupD (listScan (fun p => if p = 7 then SigResult.ok else SigResult.esrch) "a"
        [("a_0.pid", "7"), ("a_1.pid", "8"), ("b_0.pid", "9")]).2 "b_0.pid" = some "9"
    ∧ (7 : Int) ∈ (listScan (fun p => if p = 7 then SigResult.ok else SigResult.esrch) "a"
        [("a_0.pid", "7"), ("a_1.pid", "8"), ("b_0.pid", "9")]).1 := by
  have h := claim_C2_amended (fun p => if p = 7 then SigResult.ok else SigResult.esrch) "a"
    [("a_0.pid", "7"), ("a_1.pid", "8"), ("b_0.pid", "9")] (by decide)
  refine ⟨?_, ?_, ?_, ?_⟩
  · have := h.1 "a_1.pid" "8" (by decide) (by decide)
    rw [this]
    decide
  · have := h.1 "a_0.pid" "7" (by decide) (by decide)
    rw [this]
    decide
  · exact h.2.1 "b_0.pid" "9" (by decide) (by decide)
  · exact h.2.2 "a_0.pid" "7" 7 (by decide) (by decide) (by decide) (by decide)

/-! ### Instance Launcher (`startApp`, src/index.ts lines 138–186) -/

/-- The PID-record file name for a slot: `` `${appName}_${i}.pid` ``. -/
def slotPidFile (appName : String) (i : Nat) : String :=
  appName ++ "_" ++ natToString i ++ ".pid"

/-- Did the spawn yield a usable process id?  (`!proc.pid` throws: both a
missing pid and the JS-falsy pid 0 count as failure.) -/
def spawnOk : Option Nat → Bool
  | some pid => pid != 0
  | none => false

/-- `startApp`: for each instance index `0..instances-1`, spawn (outcome
given by the oracle `spawnRes`); when a valid pid is obtained, overwrite the
slot's PID record; when not, the per-instance `catch` reports the error and
the loop continues with the next instance.  Returns the resulting PID
directory and the successfully launched indices. -/
def startApp (spawnRes : Nat → Option Nat) (appName : String) (instances : Nat)
    (records : List (String × String)) : List (String × String) × List Nat :=
  (List.range instances).foldl (fun st i =>
    match spawnRes i with
    | some pid =>
      if pid ≠ 0 then (setD st.1 (slotPidFile appName i) (natToString pid), st.2 ++ [i])
      else st
    | none => st) (records, [])

theorem natToDigits_injective {i j : Nat} (h : natToDigits i = natToDigits j) : i = j := by
  have := digitsVal_natToDigits i
  rw [h, digitsVal_natToDigits j] at this
  exact this.symm

theorem slotPidFile_inj {appName : String} {i j : Nat}
    (h : slotPidFile appName i = slotPidFile appName j) : i = j := by
  have hd := congrArg String.data h
  simp only [slotPidFile, data_append] at hd
  have h1 := List.append_cancel_right hd
  have h2 := List.append_cancel_left h1
  exact natToDigits_injective h2

theorem startApp_succ (spawnRes : Nat → Option Nat) (appName : String)
    (records : List (String × String)) (n : Nat) :
    startApp spawnRes appName (n + 1) records
      = match spawnRes n with
        | some pid =>
          if pid ≠ 0 then
            (setD (startApp spawnRes appName n records).1 (slotPidFile appName n)
                (natToString pid),
              (startApp spawnRes appName n records).2 ++ [n])
          else startApp spawnRes appName n records
        | none => startApp spawnRes appName n records := by
  rw [startApp, List.range_succ, List.foldl_append]
  rfl

theorem startApp_frame (spawnRes : Nat → Option Nat) (appName : String)
    (records : List (String × String)) :
    ∀ (n : Nat) (key : String), (∀ j, j < n → key ≠ slotPidFile appName j) →
    lookupD (startApp spawnRes appName n records).1 key = lookupD records key := by
  intro n
  induction n with
  | zero => intro key _; rfl
  | succ n ih =>
    intro key hk
    rw [startApp_succ]
    rcases hs : spawnRes n with _ | pid
    · exact ih key (fun j hj => hk j (by omega))
    · by_cases hp : pid ≠ 0
      · simp only [if_pos hp]
        rw [lookupD_setD, if_neg (hk n (by omega))]
        exact ih key (fun j hj => hk j (by omega))
      · simp only [if_neg hp]
        exact ih key (fun j hj => hk j (by omega))

theorem startApp_slot (spawnRes : Nat → Option Nat) (appName : String)
    (records : List (String × String)) :
    ∀ (n i : Nat), i < n →
    lookupD (startApp spawnRes appName n records).1 (slotPidFile appName i)
      = match spawnRes i with
        | some pid =>
          if pid ≠ 0 then some (natToString pid)
          else lookupD records (slotPidFile appName i)
        | none => lookupD records (slotPidFile appName i) := by
  intro n
  induction n with
  | zero => intro i hi; omega
  | succ n ih =>
    intro i hi
    rw [startApp_succ]
    by_cases hin : i = n
    · have hfr : ∀ j, j < n → slotPidFile appName i ≠ slotPidFile appName j := by
        intro j hj heq
        have := slotPidFile_inj heq
        omega
      rcases hs : spawnRes i with _ | pid
      · rw [hin] at hs
        simp only [hs]
        exact startApp_frame spawnRes appName records n _ (hin ▸ hfr)
      · rw [hin] at hs
        by_cases hp : pid ≠ 0
        · simp only [hs, if_pos hp]
          rw [lookupD_setD, if_pos (congrArg (slotPidFile appName) hin)]
        · simp only [hs, if_neg hp]
          exact startApp_frame spawnRes appName records n _ (hin ▸ hfr)
    · have hi' : i < n := by omega
      have hne : slotPidFile appName i ≠ slotPidFile appName n := by
        intro heq
        exact hin (slotPidFile_inj heq)
      rcases hs : spawnRes n with _ | pid
      · simp only [hs]
        exact ih i hi'
      · by_cases hp : pid ≠ 0
        · simp only [hs, if_pos hp]
          rw [lookupD_setD, if_neg hne]
          exact ih i hi'
        · simp only [hs, if_neg hp]
          exact ih i hi'

theorem startApp_launched (spawnRes : Nat → Option Nat) (appName : String)
    (records : List (String × String)) :
    ∀ n : Nat, (startApp spawnRes appName n records).2
      = (List.range n).filter (fun j => spawnOk (spawnRes j)) := by
  intro n
  induction n with
  | zero => rfl
  | succ n ih =>
    rw [startApp_succ, List.range_succ, List.filter_append]
    rcases hs : spawnRes n with _ | pid
    · simp [hs, spawnOk, ih]
    · by_cases hp : pid ≠ 0
      · simp only [hs, if_pos hp]
        simp [spawnOk, hs, ih, hp]
      · have hp0 : pid = 0 := not_not.mp hp
        simp only [hs, if_neg hp]
        simp [spawnOk, hs, ih, hp0]

/-- Claim C3: for every launch of one instance, the slot's PID record is
overwritten iff the spawn produced a valid pid; on failure no PID write for
that slot occurs (its previous record survives); a per-instance failure does
not prevent the remaining instances from launching (the launched set is
exactly the indices with a valid spawn, independent of earlier failures);
slots of other keys are untouched. -/
theorem claim_C3 (spawnRes : Nat → Option Nat) (appName : String) (n : Nat)
    (records : List (String × String)) (i : Nat) (hi : i < n) :
    (lookupD (startApp spawnRes appName n records).1 (slotPidFile appName i)
      = match spawnRes i with
        | some pid =>
          if pid ≠ 0 then some (natToString pid)
          else lookupD records (slotPidFile appName i)
        | none => lookupD records (slotPidFile appName i))
    ∧ (startApp spawnRes appName n records).2
        = (List.range n).filter (fun j => spawnOk (spawnRes j))
    ∧ (∀ key, (∀ j, j < n → key ≠ slotPidFile appName j) →
        lookupD (startApp spawnRes appName n records).1 key = lookupD records key) :=
  ⟨startApp_slot spawnRes appName records n i hi,
   startApp_launched spawnRes appName records n,
   fun key hk => startApp_frame spawnRes appName records n key hk⟩

/-- Witness for claim C3: three instances where instance 1's spawn fails:
its old record survives, instances 0 and 2 are written and launched. -/
theorem claim_C3_witness :
    lookupD (startApp (fun j => if j = 1 then none else some (100 + j)) "web" 3
        [("web_1.pid", "55")]).1 (slotPidFile "web" 1) = some "55"
    ∧ (startApp (fun j => if j = 1 then none else some (100 + j)) "web" 3
        [("web_1.pid", "55")]).2 = [0, 2] := by
  have h := claim_C3 (fun j => if j = 1 then none else some (100 + j)) "web" 3
    [("web_1.pid", "55")] 1 (by decide)
  refine ⟨?_, ?_⟩
  · have h1 := h.1
    simpa using h1
  · rw [h.2.1]
    decide

/-! ### Stop / restart sweeps over the PID directory

Both `stop` (src/index.ts lines 276–329) and the kill phase of `restart`
(lines 504–557) iterate over the PID directory listing, signal each matching
record's pid, emit a report, and unlink the record.  They differ only in the
match predicate, the signal handling, and the report wording, so one generic
sweep carries both. -/

section Sweep

variable {ρ : Type}

/-- Process one listed file name: when it matches, read it, emit the report
for its content, and remove it (the real `stop` unlinks after the kill
attempt regardless of its outcome; `restart` calls `unlinkSync`
unconditionally).  A name whose file vanished is skipped. -/
def sweepStep (pred : String → Bool) (rep : String → ρ)
    (st : List (String × String) × List ρ) (file : String) :
    List (String × String) × List ρ :=
  if pred file then
    match lookupD st.1 file with
    | none => st
    | some content => (removeD st.1 file, st.2 ++ [rep content])
  else st

/-- Sweep the whole directory listing. -/
def sweepRun (pred : String → Bool) (rep : String → ρ)
    (dir : List (String × String)) : List (String × String) × List ρ :=
  (dir.map Prod.fst).foldl (sweepStep pred rep) (dir, [])

theorem lookupD_sweepStep_other (pred : String → Bool) (rep : String → ρ)
    (st : List (String × String) × List ρ) (file key : String) (hk : key ≠ file) :
    lookupD (sweepStep pred rep st file).1 key = lookupD st.1 key := by
  rw [sweepStep]
  by_cases hp : pred file
  · rcases h : lookupD st.1 file with _ | c
    · simp [hp, h]
    · simp [hp, h, lookupD_removeD, hk]
  · simp [hp]

theorem sweepFold_lookup_notMem (pred : String → Bool) (rep : String → ρ) :
    ∀ (names : List String) (st : List (String × String) × List ρ) (key : String),
    key ∉ names →
    lookupD (names.foldl (sweepStep pred rep) st).1 key = lookupD st.1 key := by
  intro names
  induction names with
  | nil => intro st key _; rfl
  | cons n rest ih =>
    intro st key hk
    have hkn : key ≠ n := fun h => hk (by simp [h])
    have hkrest : key ∉ rest := fun h => hk (by simp [h])
    rw [List.foldl_cons, ih _ _ hkrest, lookupD_sweepStep_other pred rep st n key hkn]

theorem sweepFold_lookup_mem (pred : String → Bool) (rep : String → ρ) :
    ∀ (names : List String) (st : List (String × String) × List ρ) (key : String),
    names.Nodup → key ∈ names → pred key = true →
    lookupD (names.foldl (sweepStep pred rep) st).1 key = none := by
  intro names
  induction names with
  | nil => intro _ _ _ h; cases h
  | cons n rest ih =>
    intro st key hnd hk hpred
    rw [List.nodup_cons] at hnd
    rw [List.foldl_cons]
    rcases List.mem_cons.mp hk with h | h
    · subst h
      rw [sweepFold_lookup_notMem pred rep rest _ key hnd.1, sweepStep, if_pos hpred]
      rcases hc : lookupD st.1 key with _ | c
      · exact hc
      · simp [lookupD_removeD]
    · exact ih _ key hnd.2 h hpred

theorem sweepFold_lookup_predFalse (pred : String → Bool) (rep : String → ρ) :
    ∀ (names : List String) (st : List (String × String) × List ρ) (key : String),
    pred key = false →
    lookupD (names.foldl (sweepStep pred rep) st).1 key = lookupD st.1 key := by
  intro names
  induction names with
  | nil => intro st key _; rfl
  | cons n rest ih =>
    intro st key hpred
    rw [List.foldl_cons]
    by_cases hkn : key = n
    · subst hkn
      rw [ih _ _ hpred, sweepStep, if_neg (by simp [hpred])]
    · rw [ih _ _ hpred, lookupD_sweepStep_other _ _ _ _ _ hkn]

theorem sweepFold_reports (pred : String → Bool) (rep : String → ρ) :
    ∀ (names : List String) (st : List (String × String) × List ρ),
    names.Nodup →
    (names.foldl (sweepStep pred rep) st).2
      = st.2 ++ names.filterMap (fun n =>
          if pred n then (lookupD st.1 n).map rep else none) := by
  intro names
  induction names with
  | nil => intro st _; simp
  | cons n rest ih =>
    intro st hnd
    rw [List.nodup_cons] at hnd
    rw [List.foldl_cons, ih _ hnd.2]
    have hcongr : ∀ m ∈ rest,
        (if pred m then (lookupD (sweepStep pred rep st n).1 m).map rep else none)
          = (if pred m then (lookupD st.1 m).map rep else none) := by
      intro m hm
      rw [lookupD_sweepStep_other pred rep st n m (fun hq => hnd.1 (hq ▸ hm))]
    rw [filterMap_congr hcongr, List.filterMap_cons]
    by_cases hp : pred n
    · rcases hc : lookupD st.1 n with _ | c
      · simp [sweepStep, hp, hc]
      · simp [sweepStep, hp, hc]
    · simp [sweepStep, hp]

end Sweep

/-- Reading each listed name from an unchanging directory with distinct
names is the same as visiting its entries. -/
theorem filterMap_names {α β : Type} (g : String → Option α → Option β) :
    ∀ (dir : List (String × α)), (dir.map Prod.fst).Nodup →
    (dir.map Prod.fst).filterMap (fun n => g n (lookupD dir n))
      = dir.filterMap (fun e => g e.1 (some e.2)) := by
  intro dir
  induction dir with
  | nil => intro _; rfl
  | cons e es ih =>
    intro hnd
    rw [List.map_cons, List.nodup_cons] at hnd
    rw [List.map_cons, List.filterMap_cons, List.filterMap_cons]
    have hself : lookupD (e :: es) e.1 = some e.2 := by simp [lookupD]
    have hcongr : ∀ m ∈ es.map Prod.fst,
        g m (lookupD (e :: es) m) = g m (lookupD es m) := by
      intro m hm
      have : ¬e.1 = m := fun hq => hnd.1 (hq ▸ hm)
      rw [lookupD, if_neg this]
    rw [hself, filterMap_congr hcongr, ih hnd.2]

/-! ### `stop` / `kill` (src/index.ts lines 276–329) -/

/-- Operator-visible outcome for one record processed by `stop`. -/
inductive StopReport
  | sentOk (pid : Int)        -- "Successfully sent <signal> to process <pid>"
  | alreadyExited (pid : Int) -- ESRCH: "Process <pid> not found, may have already exited"
  | killError (pid : Int)     -- any other kill failure: console.error
  | invalidPid                -- record did not parse; `process.kill(NaN, sig)` throws
deriving DecidableEq

/-- Which stop reports are error reports (`console.error`). -/
def isErrorReport : StopReport → Bool
  | StopReport.killError _ => true
  | StopReport.invalidPid => true
  | _ => false

/-- `stop`'s per-file filter: a `.pid` file whose base app matches the
target; an empty target and the sentinel `'all'` match every `.pid` file. -/
def stopMatches (target file : String) : Bool :=
  strEndsWith file ".pid"
    && (target == "" || target == "all" || target == baseAppOf file)

/-- The report `stop` emits for one record's content. -/
def stopReportOf (os : Int → SigResult) (content : String) : StopReport :=
  match parseIntJS content with
  | none => StopReport.invalidPid
  | some pid =>
    match os pid with
    | SigResult.ok => StopReport.sentOk pid
    | SigResult.esrch => StopReport.alreadyExited pid
    | SigResult.eperm => StopReport.killError pid

/-- The `stop` command's effect on the PID directory, with its reports. -/
def stopCmd (os : Int → SigResult) (target : String) (dir : List (String × String)) :
    List (String × String) × List StopReport :=
  sweepRun (stopMatches target) (stopReportOf os) dir

/-! ### The kill phase of `restart` (src/index.ts lines 504–557) -/

/-- Operator-visible outcome for one record processed by `restart`'s kill
phase.  Unlike `stop`, the `catch` has no ESRCH case: every kill failure is
`console.error`'d as "Failed to kill process <pid>". -/
inductive RestartReport
  | killed (pid : Int)
  | failed (pid : Int)
  | failedNaN
deriving DecidableEq

/-- `restart`'s per-file filter (the two loops for `''`/`'all'` and a named
target combine into one predicate). -/
def restartMatches (target file : String) : Bool :=
  strEndsWith file ".pid"
    && (target == "" || target == "all" || baseAppOf file == target)

/-- The report `restart` emits for one record's content. -/
def restartReportOf (os : Int → SigResult) (content : String) : RestartReport :=
  match parseIntJS content with
  | none => RestartReport.failedNaN
  | some pid =>
    match os pid with
    | SigResult.ok => RestartReport.killed pid
    | _ => RestartReport.failed pid

/-- The kill phase of `restart`: signal and unlink every matching record. -/
def restartKill (os : Int → SigResult) (target : String) (dir : List (String × String)) :
    List (String × String) × List RestartReport :=
  sweepRun (restartMatches target) (restartReportOf os) dir

/-! ### `rotate stop` (src/index.ts lines 607–629) -/

/-- Operator-visible outcome of `rotate stop`. -/
inductive RotateStopReport
  | stopped (pid : Int)       -- killed and record removed
  | staleRemoved (pid : Int)  -- ESRCH: stale record removed, benign log
  | failed (pid : Int)        -- other failure: console.error, record kept
  | failedNaN                 -- record did not parse; kill throws, record kept
  | noWatcher
deriving DecidableEq

/-- `rotate stop`: read the watcher record, signal it; ESRCH is treated as
already-stopped (record removed, benign message); any other failure keeps
the record and reports an error. -/
def rotateStop (os : Int → SigResult) (record : Option String) :
    Option String × RotateStopReport :=
  match record with
  | none => (none, RotateStopReport.noWatcher)
  | some content =>
    match parseIntJS content with
    | none => (some content, RotateStopReport.failedNaN)
    | some pid =>
      match os pid with
      | SigResult.ok => (none, RotateStopReport.stopped pid)
      | SigResult.esrch => (none, RotateStopReport.staleRemoved pid)
      | SigResult.eperm => (some content, RotateStopReport.failed pid)

/-- Claim C4: every PID record matched by `stop` is removed regardless of
the signal outcome; unmatched records survive; the reports are exactly one
per matched record; and a pid already absent from the process table (ESRCH)
yields the benign "already exited" message, not an error report. -/
theorem claim_C4 (os : Int → SigResult) (target : String)
    (dir : List (String × String)) (hnd : (dir.map Prod.fst).Nodup) :
    (∀ f c, (f, c) ∈ dir → stopMatches target f = true →
      lookupD (stopCmd os target dir).1 f = none)
    ∧ (∀ f c, (f, c) ∈ dir → stopMatches target f = false →
      lookupD (stopCmd os target dir).1 f = some c)
    ∧ (stopCmd os target dir).2
        = dir.filterMap (fun e =>
            if stopMatches target e.1 then some (stopReportOf os e.2) else none)
    ∧ (∀ c pid, parseIntJS c = some pid → os pid = SigResult.esrch →
      stopReportOf os c = StopReport.alreadyExited pid
        ∧ isErrorReport (stopReportOf os c) = false) := by
  refine ⟨?_, ?_, ?_, ?_⟩
  · intro f c hm hmatch
    exact sweepFold_lookup_mem _ _ _ _ f hnd (List.mem_map_of_mem Prod.fst hm) hmatch
  · intro f c hm hmatch
    rw [stopCmd, sweepRun, sweepFold_lookup_predFalse _ _ _ _ f hmatch]
    exact lookupD_of_mem hnd hm
  · rw [stopCmd, sweepRun, sweepFold_reports _ _ _ _ hnd]
    simp only [List.nil_append]
    rw [filterMap_names (fun n o => if stopMatches target n then o.map (stopReportOf os) else none)
      dir hnd]
    simp
  · intro c pid hparse hes
    constructor
    · simp [stopReportOf, hparse, hes]
    · simp [stopReportOf, hparse, hes, isErrorReport]

/-- Witness for claim C4: stopping app `a` where pid 5 is already gone
(ESRCH) removes its record, leaves app `b`'s record, and reports only the
benign "already exited" message. -/
theorem claim_C4_witness :
    lookupD (stopCmd (fun p => if p = 5 then SigResult.esrch else SigResult.ok) "a"
        [("a_0.pid", "5"), ("b_0.pid", "6")]).1 "a_0.pid" = none
    ∧ lookupD (stopCmd (fun p => if p = 5 then SigResult.esrch else SigResult.ok) "a"
        [("a_0.pid", "5"), ("b_0.pid", "6")]).1 "b_0.pid" = some "6"
    ∧ (stopCmd (fun p => if p = 5 then SigResult.esrch else SigResult.ok) "a"
        [("a_0.pid", "5"), ("b_0.pid", "6")]).2 = [StopReport.alreadyExited 5]
    ∧ isErrorReport (stopReportOf
        (fun p => if p = 5 then SigResult.esrch else SigResult.ok) "5") = false := by
  have h := claim_C4 (fun p => if p = 5 then SigResult.esrch else SigResult.ok) "a"
    [("a_0.pid", "5"), ("b_0.pid", "6")] (by decide)
  refine ⟨h.1 "a_0.pid" "5" (by decide) (by decide),
    h.2.1 "b_0.pid" "6" (by decide) (by decide), ?_,
    (h.2.2.2 "5" 5 (by decide) (by decide)).2⟩
  rw [h.2.2.1]
  decide

/-- Claim C5 as stated is false: in `restart`'s kill phase a pid that is
already gone (ESRCH, here pid 5) is reported through the "Failed to kill
process" error path — the `catch` there has no ESRCH case. -/
theorem claim_C5_counterexample :
    ¬ (∀ (os : Int → SigResult) (target : String) (dir : List (String × String))
        (f c : String) (pid : Int), (f, c) ∈ dir → restartMatches target f = true →
        parseIntJS c = some pid → os pid = SigResult.esrch →
        RestartReport.failed pid ∉ (restartKill os target dir).2) := by
  intro h
  exact absurd
    (show RestartReport.failed 5 ∈
        (restartKill (fun _ => SigResult.esrch) "" [("a_0.pid", "5")]).2 by decide)
    (h (fun _ => SigResult.esrch) "" [("a_0.pid", "5")] "a_0.pid" "5" 5
      (by decide) (by decide) (by decide) (by decide))

/-- Claim C5 (amended): a signal result meaning "no such process" is treated
as benign (already stopped) in `stop` and in `rotate stop` — the record is
still removed and no error is reported — but in `restart`'s kill phase every
signal failure, ESRCH included, is surfaced through the "Failed to kill"
error report. -/
theorem claim_C5_amended (os : Int → SigResult) (target : String)
    (dir : List (String × String)) (f c content : String) (pid qid : Int)
    (hnd : (dir.map Prod.fst).Nodup) (hm : (f, c) ∈ dir)
    (hparse : parseIntJS c = some pid) (hes : os pid = SigResult.esrch)
    (hsm : stopMatches target f = true) (hrm : restartMatches target f = true)
    (hparse2 : parseIntJS content = some qid) (hes2 : os qid = SigResult.esrch) :
    (StopReport.alreadyExited pid ∈ (stopCmd os target dir).2
      ∧ isErrorReport (StopReport.alreadyExited pid) = false
      ∧ lookupD (stopCmd os target dir).1 f = none)
    ∧ rotateStop os (some content) = (none, RotateStopReport.staleRemoved qid)
    ∧ RestartReport.failed pid ∈ (restartKill os target dir).2 := by
  refine ⟨⟨?_, rfl, ?_⟩, ?_, ?_⟩
  · rw [stopCmd, sweepRun, sweepFold_reports _ _ _ _ hnd]
    simp only [List.nil_append]
    rw [filterMap_names
      (fun n o => if stopMatches target n then o.map (stopReportOf os) else none) dir hnd]
    refine List.mem_filterMap.mpr ⟨(f, c), hm, ?_⟩
    simp [hsm, stopReportOf, hparse, hes]
  · exact sweepFold_lookup_mem _ _ _ _ f hnd (List.mem_map_of_mem Prod.fst hm) hsm
  · simp [rotateStop, hparse2, hes2]
  · rw [restartKill, sweepRun, sweepFold_reports _ _ _ _ hnd]
    simp only [List.nil_append]
    rw [filterMap_names
      (fun n o => if restartMatches target n then o.map (restartReportOf os) else none) dir hnd]
    refine List.mem_filterMap.mpr ⟨(f, c), hm, ?_⟩
    simp [hrm, restartReportOf, hparse, hes]

/-- Witness for claim C5's amended theorem at a concrete single-record
directory whose pid is gone. -/
theorem claim_C5_amended_witness :
    (StopReport.alreadyExited 5 ∈
        (stopCmd (fun _ => SigResult.esrch) "a" [("a_0.pid", "5")]).2
      ∧ isErrorReport (StopReport.alreadyExited 5) = false
      ∧ lookupD (stopCmd (fun _ => SigResult.esrch) "a" [("a_0.pid", "5")]).1 "a_0.pid" = none)
    ∧ rotateStop (fun _ => SigResult.esrch) (some "9")
        = (none, RotateStopReport.staleRemoved 9)
    ∧ RestartReport.failed 5 ∈
        (restartKill (fun _ => SigResult.esrch) "a" [("a_0.pid", "5")]).2 :=
  claim_C5_amended (fun _ => SigResult.esrch) "a" [("a_0.pid", "5")] "a_0.pid" "5" "9" 5 9
    (by decide) (by decide) (by decide) (by decide) (by decide) (by decide)
    (by decide) (by decide)

/-! ### `start` and `hasRunningProcesses`
(src/index.ts lines 240–274 and 650–676) -/

theorem mem_of_lookupD {α : Type} :
    ∀ {d : List (String × α)} {k : String} {v : α}, lookupD d k = some v → (k, v) ∈ d := by
  intro d
  induction d with
  | nil => intro k v h; cases h
  | cons e es ih =>
    intro k v h
    rw [lookupD] at h
    by_cases he : e.1 = k
    · rw [if_pos he] at h
      cases h
      have hke : (k, e.2) = e := by rw [← he]
      rw [hke]
      exact List.mem_cons_self e es
    · rw [if_neg he] at h
      exact List.mem_cons_of_mem e (ih h)

/-- `hasRunningProcesses()`: does any `.pid` record hold a pid whose zero
signal succeeds?  Any probe failure (ESRCH or otherwise) is ignored. -/
def hasRunningB (os : Int → SigResult) (dir : List (String × String)) : Bool :=
  (dir.map Prod.fst).any (fun f =>
    strEndsWith f ".pid" &&
      (match lookupD dir f with
       | some content =>
         match parseIntJS content with
         | some pid =>
           match os pid with
           | SigResult.ok => true
           | _ => false
         | none => false
       | none => false))

/-- A configured application, reduced to the fields the `start` command
dispatch consults. -/
structure App where
  name : String
  instances : Nat
deriving DecidableEq

/-- Result of the `start` command's dispatch. -/
structure StartOut where
  target : String
  started : List App
  notFound : Bool
  listing : Option (List String)
deriving DecidableEq

/-- The `start [service]` action: widen an empty target to `'all'` when
nothing is running, start the matching apps (all of them for `'all'`), and
on an unmatched non-`'all'` target report not-found and list the apps. -/
def startCmd (os : Int → SigResult) (dir : List (String × String))
    (apps : List App) (service : String) : StartOut :=
  let target := if service == "" && !(hasRunningB os dir) then "all" else service
  let started := apps.filter (fun a => a.name == target || target == "all")
  let nf := !(apps.any (fun a => a.name == target)) && !(target == "all")
  ⟨target, started, nf, if nf then some (apps.map App.name) else none⟩

/-- The spec-side hypothesis of claim C6: no recorded pid passes the
liveness probe. -/
def NoLiveRecord (os : Int → SigResult) (dir : List (String × String)) : Prop :=
  ∀ f c pid, (f, c) ∈ dir → strEndsWith f ".pid" = true → parseIntJS c = some pid →
    os pid ≠ SigResult.ok

theorem hasRunningB_false (os : Int → SigResult) (dir : List (String × String))
    (h : NoLiveRecord os dir) : hasRunningB os dir = false := by
  rw [hasRunningB, List.any_eq_false]
  intro f _
  cases hend : strEndsWith f ".pid"
  · simp
  · rcases hc : lookupD dir f with _ | c
    · simp
    · rcases hp : parseIntJS c with _ | pid
      · simp [hp]
      · have hmem := mem_of_lookupD hc
        have hne := h f c pid hmem hend hp
        rcases hos : os pid
        · exact absurd hos hne
        · simp [hp, hos]
        · simp [hp, hos]

/-- Claim C6: `start` with no explicit target, when no recorded pid passes
the liveness probe, widens the target to `'all'` and starts every configured
application (in configuration order). -/
theorem claim_C6 (os : Int → SigResult) (dir : List (String × String))
    (apps : List App) (hnr : NoLiveRecord os dir) :
    (startCmd os dir apps "").target = "all"
    ∧ (startCmd os dir apps "").started = apps := by
  have hb : hasRunningB os dir = false := hasRunningB_false os dir hnr
  constructor
  · simp [startCmd, hb]
  · simp [startCmd, hb]

/-- Witness for claim C6: empty PID directory, two configured apps — both
are started. -/
theorem claim_C6_witness :
    (startCmd (fun _ => SigResult.ok) [] [⟨"web", 2⟩, ⟨"db", 1⟩] "").target = "all"
    ∧ (startCmd (fun _ => SigResult.ok) [] [⟨"web", 2⟩, ⟨"db", 1⟩] "").started
        = [⟨"web", 2⟩, ⟨"db", 1⟩] :=
  claim_C6 (fun _ => SigResult.ok) [] [⟨"web", 2⟩, ⟨"db", 1⟩]
    (fun _ _ _ h _ _ => absurd h (List.not_mem_nil _))

/-- Claim C10: `start` with no explicit target while some recorded pid is
alive keeps the empty target, which matches no configured application (their
names being nonempty): nothing is started, the empty-named service is
reported not found, and all configured applications are listed. -/
theorem claim_C10 (os : Int → SigResult) (dir : List (String × String))
    (apps : List App) (hnd : (dir.map Prod.fst).Nodup)
    (hnames : ∀ a ∈ apps, a.name ≠ "")
    (hlive : ∃ f c pid, (f, c) ∈ dir ∧ strEndsWith f ".pid" = true
      ∧ parseIntJS c = some pid ∧ os pid = SigResult.ok) :
    (startCmd os dir apps "").target = ""
    ∧ (startCmd os dir apps "").started = []
    ∧ (startCmd os dir apps "").notFound = true
    ∧ (startCmd os dir apps "").listing = some (apps.map App.name) := by
  obtain ⟨f, c, pid, hm, hend, hp, hok⟩ := hlive
  have hb : hasRunningB os dir = true := by
    rw [hasRunningB, List.any_eq_true]
    refine ⟨f, List.mem_map_of_mem Prod.fst hm, ?_⟩
    rw [hend, lookupD_of_mem hnd hm]
    simp [hp, hok]
  have hnm : ∀ a ∈ apps, (a.name == "") = false := by
    intro a ha
    exact beq_eq_false_iff_ne.mpr (hnames a ha)
  have hstarted : apps.filter (fun a => a.name == "" || ("" : String) == "all") = [] := by
    rw [List.filter_eq_nil_iff]
    intro a ha
    simp [hnm a ha]
  have hany : apps.any (fun a => a.name == "") = false := by
    rw [List.any_eq_false]
    intro a ha
    simp [hnm a ha]
  refine ⟨by simp [startCmd, hb], ?_, ?_, ?_⟩
  · simp only [startCmd, hb]
    simpa using hstarted
  · simp only [startCmd, hb]
    simpa using hany
  · simp only [startCmd, hb]
    simp only [Bool.not_true, Bool.and_false, Bool.false_and]
    simpa using hany

/-- Witness for claim C10: one live record, one configured app named
`web` — nothing is started and the not-found listing is produced. -/
theorem claim_C10_witness :
    (startCmd (fun _ => SigResult.ok) [("a_0.pid", "5")] [⟨"web", 1⟩] "").target = ""
    ∧ (startCmd (fun _ => SigResult.ok) [("a_0.pid", "5")] [⟨"web", 1⟩] "").started = []
    ∧ (startCmd (fun _ => SigResult.ok) [("a_0.pid", "5")] [⟨"web", 1⟩] "").notFound = true
    ∧ (startCmd (fun _ => SigResult.ok) [("a_0.pid", "5")] [⟨"web", 1⟩] "").listing
        = some ["web"] :=
  claim_C10 (fun _ => SigResult.ok) [("a_0.pid", "5")] [⟨"web", 1⟩]
    (by decide) (by decide)
    ⟨"a_0.pid", "5", 5, by decide, by decide, by decide, rfl⟩

/-! ### Log Rotation Engine (`rotateLogFiles`, src/index.ts lines 66–97)

A log directory maps a file name to a `(size, mtime-in-ms)` pair.  The
function takes one `readdir` listing, rotates every listed `.log` file at or
above the size threshold (rename to `<name>.<timestamp>.bak` — which keeps
the mtime — then recreate the original path empty with mtime `now`), and
then walks the SAME listing again deleting files older than the retention
window, `stat`ing each listed name in its post-rotation state. -/

def MAX_LOG_SIZE : Nat := 10 * 1024 * 1024

def LOG_RETENTION_MS : Nat := 3 * 24 * 60 * 60 * 1000

/-- `` `${filePath}.${timestamp}.bak` `` -/
def archiveName (name ts : String) : String := name ++ "." ++ ts ++ ".bak"

/-- One iteration of the size-rotation loop. -/
def rotStep (now : Nat) (ts : String) (d : List (String × (Nat × Nat))) (n : String) :
    List (String × (Nat × Nat)) :=
  if strEndsWith n ".log" then
    match lookupD d n with
    | some st =>
      if MAX_LOG_SIZE ≤ st.1 then setD (renameD d n (archiveName n ts)) n (0, now)
      else d
    | none => d
  else d

/-- One iteration of the age-retention loop. -/
def retStep (now : Nat) (d : List (String × (Nat × Nat))) (n : String) :
    List (String × (Nat × Nat)) :=
  match lookupD d n with
  | some st => if LOG_RETENTION_MS < now - st.2 then removeD d n else d
  | none => d

/-- `rotateLogFiles()`: both passes run over the one initial listing. -/
def rotateLogFiles (now : Nat) (ts : String) (d : List (String × (Nat × Nat))) :
    List (String × (Nat × Nat)) :=
  (d.map Prod.fst).foldl (retStep now) ((d.map Prod.fst).foldl (rotStep now ts) d)

theorem archiveName_length (name ts : String) :
    (archiveName name ts).data.length = name.data.length + ts.data.length + 5 := by
  simp only [archiveName, data_append, List.length_append]
  norm_num [show (".".data.length = 1) from rfl, show (".bak".data.length = 4) from rfl]
  omega

theorem archiveName_ne_self (name ts : String) : archiveName name ts ≠ name := by
  intro h
  have := congrArg (fun s => s.data.length) h
  simp only [archiveName_length] at this
  omega

theorem archiveName_inj {a b ts : String} (h : archiveName a ts = archiveName b ts) :
    a = b := by
  have hd := congrArg String.data h
  simp only [archiveName, data_append] at hd
  have h1 := List.append_cancel_right hd
  have h2 := List.append_cancel_right h1
  exact string_ext (List.append_cancel_right h2)

theorem lookupD_rotStep_other (now : Nat) (ts : String)
    (d : List (String × (Nat × Nat))) (n m : String)
    (hm1 : m ≠ n) (hm2 : m ≠ archiveName n ts) :
    lookupD (rotStep now ts d n) m = lookupD d m := by
  rw [rotStep]
  by_cases hlog : strEndsWith n ".log"
  · rcases h : lookupD d n with _ | st
    · simp [hlog, h]
    · by_cases hsz : MAX_LOG_SIZE ≤ st.1
      · simp only [hlog, h, if_pos hsz, if_true]
        rw [lookupD_setD, if_neg hm1, lookupD_renameD_other d n _ m hm1 hm2]
      · simp [hlog, h, hsz]
  · simp [hlog]

theorem rotStep_fires (now : Nat) (ts : String) (d : List (String × (Nat × Nat)))
    (n : String) (sz mt : Nat) (hlog : strEndsWith n ".log" = true)
    (h : lookupD d n = some (sz, mt)) (hsz : MAX_LOG_SIZE ≤ sz) :
    lookupD (rotStep now ts d n) n = some (0, now)
    ∧ lookupD (rotStep now ts d n) (archiveName n ts) = some (sz, mt) := by
  constructor
  · simp only [rotStep, hlog, h, if_pos hsz, if_true]
    rw [lookupD_setD, if_pos rfl]
  · simp only [rotStep, hlog, h, if_pos hsz, if_true]
    rw [lookupD_setD, if_neg (archiveName_ne_self n ts),
      lookupD_renameD_new d n _ _ h]

theorem rotStep_skips (now : Nat) (ts : String) (d : List (String × (Nat × Nat)))
    (n : String) (sz mt : Nat) (h : lookupD d n = some (sz, mt))
    (hno : ¬(strEndsWith n ".log" = true ∧ MAX_LOG_SIZE ≤ sz)) :
    rotStep now ts d n = d := by
  by_cases hlog : strEndsWith n ".log"
  · simp only [rotStep, hlog, h, if_true]
    rw [if_neg (fun hsz => hno ⟨hlog, hsz⟩)]
  · simp [rotStep, hlog]

theorem pass1_frame (now : Nat) (ts : String) :
    ∀ (names : List String) (s : List (String × (Nat × Nat))) (m : String),
    m ∉ names → (∀ n ∈ names, m ≠ archiveName n ts) →
    lookupD (names.foldl (rotStep now ts) s) m = lookupD s m := by
  intro names
  induction names with
  | nil => intro s m _ _; rfl
  | cons k rest ih =>
    intro s m hm harch
    rw [List.foldl_cons,
      ih _ m (fun h => hm (by simp [h])) (fun n hn => harch n (by simp [hn])),
      lookupD_rotStep_other now ts s k m (fun h => hm (by simp [h])) (harch k (by simp))]

theorem pass1_rot (now : Nat) (ts : String) :
    ∀ (names : List String) (s : List (String × (Nat × Nat))) (n : String) (sz mt : Nat),
    names.Nodup → (∀ a ∈ names, ∀ b ∈ names, archiveName a ts ≠ b) →
    n ∈ names → lookupD s n = some (sz, mt) →
    strEndsWith n ".log" = true → MAX_LOG_SIZE ≤ sz →
    lookupD (names.foldl (rotStep now ts) s) n = some (0, now)
    ∧ lookupD (names.foldl (rotStep now ts) s) (archiveName n ts) = some (sz, mt) := by
  intro names
  induction names with
  | nil => intro _ _ _ _ _ _ h; cases h
  | cons k rest ih =>
    intro s n sz mt hnd h2 hn hlk hlog hsz
    rw [List.nodup_cons] at hnd
    rw [List.foldl_cons]
    rcases List.mem_cons.mp hn with h | h
    · subst h
      have hfires := rotStep_fires now ts s n sz mt hlog hlk hsz
      constructor
      · rw [pass1_frame now ts rest _ n hnd.1
          (fun r hr hq => (h2 r (by simp [hr]) n (by simp)) hq.symm)]
        exact hfires.1
      · have harchmem : archiveName n ts ∉ rest := by
          intro hin
          exact h2 n (by simp) (archiveName n ts) (by simp [hin]) rfl
        have harch2 : ∀ r ∈ rest, archiveName n ts ≠ archiveName r ts := by
          intro r hr heq
          have := archiveName_inj heq
          subst this
          exact hnd.1 hr
        rw [pass1_frame now ts rest _ (archiveName n ts) harchmem harch2]
        exact hfires.2
    · have hnk : n ≠ k := fun hq => hnd.1 (hq ▸ h)
      have hnarch : n ≠ archiveName k ts := fun hq =>
        (h2 k (by simp) n (by simp [h])) hq.symm
      have hlk' : lookupD (rotStep now ts s k) n = some (sz, mt) := by
        rw [lookupD_rotStep_other now ts s k n hnk hnarch]
        exact hlk
      exact ih _ n sz mt hnd.2
        (fun a ha b hb => h2 a (by simp [ha]) b (by simp [hb])) h hlk' hlog hsz

theorem pass1_nonrot (now : Nat) (ts : String) :
    ∀ (names : List String) (s : List (String × (Nat × Nat))) (n : String) (sz mt : Nat),
    names.Nodup → (∀ a ∈ names, ∀ b ∈ names, archiveName a ts ≠ b) →
    n ∈ names → lookupD s n = some (sz, mt) →
    ¬(strEndsWith n ".log" = true ∧ MAX_LOG_SIZE ≤ sz) →
    lookupD (names.foldl (rotStep now ts) s) n = some (sz, mt) := by
  intro names
  induction names with
  | nil => intro _ _ _ _ _ _ h; cases h
  | cons k rest ih =>
    intro s n sz mt hnd h2 hn hlk hno
    rw [List.nodup_cons] at hnd
    rw [List.foldl_cons]
    rcases List.mem_cons.mp hn with h | h
    · subst h
      rw [rotStep_skips now ts s n sz mt hlk hno]
      rw [pass1_frame now ts rest _ n hnd.1
        (fun r hr hq => (h2 r (by simp [hr]) n (by simp)) hq.symm)]
      exact hlk
    · have hnk : n ≠ k := fun hq => hnd.1 (hq ▸ h)
      have hnarch : n ≠ archiveName k ts := fun hq =>
        (h2 k (by simp) n (by simp [h])) hq.symm
      have hlk' : lookupD (rotStep now ts s k) n = some (sz, mt) := by
        rw [lookupD_rotStep_other now ts s k n hnk hnarch]
        exact hlk
      exact ih _ n sz mt hnd.2
        (fun a ha b hb => h2 a (by simp [ha]) b (by simp [hb])) h hlk' hno

theorem lookupD_retStep_other (now : Nat) (d : List (String × (Nat × Nat)))
    (n m : String) (hm : m ≠ n) : lookupD (retStep now d n) m = lookupD d m := by
  rcases h : lookupD d n with _ | st
  · simp [retStep, h]
  · simp only [retStep, h]
    by_cases hold : LOG_RETENTION_MS < now - st.2
    · rw [if_pos hold, lookupD_removeD, if_neg hm]
    · rw [if_neg hold]

theorem pass2_frame (now : Nat) :
    ∀ (names : List String) (s : List (String × (Nat × Nat))) (m : String),
    m ∉ names → lookupD (names.foldl (retStep now) s) m = lookupD s m := by
  intro names
  induction names with
  | nil => intro s m _; rfl
  | cons k rest ih =>
    intro s m hm
    rw [List.foldl_cons, ih _ m (fun h => hm (by simp [h])),
      lookupD_retStep_other now s k m (fun h => hm (by simp [h]))]

theorem pass2_mem (now : Nat) :
    ∀ (names : List String) (s : List (String × (Nat × Nat))) (n : String),
    names.Nodup → n ∈ names →
    lookupD (names.foldl (retStep now) s) n
      = match lookupD s n with
        | some st => if LOG_RETENTION_MS < now - st.2 then none else some st
        | none => none := by
  intro names
  induction names with
  | nil => intro _ _ _ h; cases h
  | cons k rest ih =>
    intro s n hnd hn
    rw [List.nodup_cons] at hnd
    rw [List.foldl_cons]
    rcases List.mem_cons.mp hn with h | h
    · subst h
      rw [pass2_frame now rest _ n hnd.1]
      rcases hlk : lookupD s n with _ | st
      · simp [retStep, hlk]
      · simp only [retStep, hlk]
        by_cases hold : LOG_RETENTION_MS < now - st.2
        · simp only [if_pos hold]
          rw [lookupD_removeD, if_pos rfl]
        · simp only [if_neg hold]
          exact hlk
    · have hnk : n ≠ k := fun hq => hnd.1 (hq ▸ h)
      rw [ih _ n hnd.2 h, lookupD_retStep_other now s k n hnk]

/-- Claim C7 (amended): after one rotation pass over one directory listing —
with distinct names, none of which is the archive name of another — every
listed `.log` file at or above 10 MiB is renamed to its timestamped `.bak`
archive (which keeps the original size and mtime) and its path is recreated
empty with mtime `now`; every other listed file is deleted exactly when its
mtime is more than 3 days old, else untouched.  Archives created during the
pass therefore survive it even when their inherited mtime is already past
the retention window (only a later pass removes them): age retention re-visits
the pass's own listing at the original paths, not the new archive names. -/
theorem claim_C7_amended (now : Nat) (ts : String) (d : List (String × (Nat × Nat)))
    (hnd : (d.map Prod.fst).Nodup)
    (hfresh : ∀ a ∈ d.map Prod.fst, ∀ b ∈ d.map Prod.fst, archiveName a ts ≠ b)
    (name : String) (sz mt : Nat) (hm : (name, (sz, mt)) ∈ d) :
    (strEndsWith name ".log" = true → MAX_LOG_SIZE ≤ sz →
      lookupD (rotateLogFiles now ts d) name = some (0, now)
        ∧ lookupD (rotateLogFiles now ts d) (archiveName name ts) = some (sz, mt))
    ∧ (¬(strEndsWith name ".log" = true ∧ MAX_LOG_SIZE ≤ sz) →
        LOG_RETENTION_MS < now - mt →
        lookupD (rotateLogFiles now ts d) name = none)
    ∧ (¬(strEndsWith name ".log" = true ∧ MAX_LOG_SIZE ≤ sz) →
        ¬(LOG_RETENTION_MS < now - mt) →
        lookupD (rotateLogFiles now ts d) name = some (sz, mt)) := by
  have hlk : lookupD d name = some (sz, mt) := lookupD_of_mem hnd hm
  have hnmem : name ∈ d.map Prod.fst := List.mem_map_of_mem Prod.fst hm
  refine ⟨fun hlog hsz => ?_, fun hno hold => ?_, fun hno hyoung => ?_⟩
  · have hrot := pass1_rot now ts (d.map Prod.fst) d name sz mt hnd hfresh hnmem hlk hlog hsz
    constructor
    · rw [rotateLogFiles, pass2_mem now _ _ name hnd hnmem, hrot.1]
      simp
    · have harchmem : archiveName name ts ∉ d.map Prod.fst := by
        intro hin
        exact hfresh name hnmem (archiveName name ts) hin rfl
      rw [rotateLogFiles, pass2_frame now _ _ _ harchmem]
      exact hrot.2
  · have h1 := pass1_nonrot now ts (d.map Prod.fst) d name sz mt hnd hfresh hnmem hlk hno
    rw [rotateLogFiles, pass2_mem now _ _ name hnd hnmem, h1]
    simp [hold]
  · have h1 := pass1_nonrot now ts (d.map Prod.fst) d name sz mt hnd hfresh hnmem hlk hno
    rw [rotateLogFiles, pass2_mem now _ _ name hnd hnmem, h1]
    simp [hyoung]

/-- Claim C7 as stated is false: a 10 MiB log whose mtime is already past
the 3-day window is rotated, and the resulting `.bak` archive — which keeps
that old mtime — is still in the directory after the pass, though the claim
demands every file older than 3 days be deleted.  (The retention loop walks
the pre-rotation listing, so it stats the recreated empty file at the
original path and never visits the new archive name.) -/
theorem claim_C7_counterexample :
    ¬ (∀ (now : Nat) (ts : String) (d : List (String × (Nat × Nat)))
        (e : String × (Nat × Nat)), e ∈ rotateLogFiles now ts d →
        ¬(LOG_RETENTION_MS < now - e.2.2)) := by
  intro h
  exact h 259200001 "T" [("a_0.log", (10485760, 0))] ("a_0.log.T.bak", (10485760, 0))
    (by decide) (by decide)

/-- Witness for claim C7's amended theorem: an oversized old log is rotated
(archive keeps size and mtime, original becomes empty with fresh mtime), a
small old log and an old archive from an earlier pass are deleted. -/
theorem claim_C7_amended_witness :
    (lookupD (rotateLogFiles 259200001 "T"
        [("a_0.log", (10485760, 0)), ("b_0.log", (5, 0)), ("old.bak", (1, 0))])
        "a_0.log" = some (0, 259200001)
      ∧ lookupD (rotateLogFiles 259200001 "T"
        [("a_0.log", (10485760, 0)), ("b_0.log", (5, 0)), ("old.bak", (1, 0))])
        (archiveName "a_0.log" "T") = some (10485760, 0))
    ∧ lookupD (rotateLogFiles 259200001 "T"
        [("a_0.log", (10485760, 0)), ("b_0.log", (5, 0)), ("old.bak", (1, 0))])
        "b_0.log" = none
    ∧ lookupD (rotateLogFiles 259200001 "T"
        [("a_0.log", (10485760, 0)), ("b_0.log", (5, 0)), ("old.bak", (1, 0))])
        "old.bak" = none := by
  have ha := claim_C7_amended 259200001 "T"
    [("a_0.log", (10485760, 0)), ("b_0.log", (5, 0)), ("old.bak", (1, 0))]
    (by decide) (by decide) "a_0.log" 10485760 0 (by decide)
  have hb := claim_C7_amended 259200001 "T"
    [("a_0.log", (10485760, 0)), ("b_0.log", (5, 0)), ("old.bak", (1, 0))]
    (by decide) (by decide) "b_0.log" 5 0 (by decide)
  have hc := claim_C7_amended 259200001 "T"
    [("a_0.log", (10485760, 0)), ("b_0.log", (5, 0)), ("old.bak", (1, 0))]
    (by decide) (by decide) "old.bak" 1 0 (by decide)
  exact ⟨ha.1 (by decide) (by decide),
    hb.2.1 (by decide) (by decide),
    hc.2.1 (by decide) (by decide)⟩

/-! ### `rotate start` (src/index.ts lines 559–590) -/

/-- Result of the `rotate start` action. -/
structure RotateStartOut where
  logs : List (String × (Nat × Nat))
  didSpawn : Bool
  record : Option String
deriving DecidableEq

/-- `` `(child.pid || '').toString()` ``: the watcher record written after a
spawn. -/
def watcherRecordOf : Option Nat → String
  | some pid => if pid = 0 then "" else natToString pid
  | none => ""

/-- `rotate start`: one immediate `rotateLogFiles()`, then the watcher
check — if the recorded watcher pid probes alive, return without spawning
and leave the record untouched; otherwise spawn a new detached watcher
(oracle `spawnPid`) and overwrite the record with its pid. -/
def rotateStart (os : Int → SigResult) (now : Nat) (ts : String)
    (logs : List (String × (Nat × Nat))) (record : Option String)
    (spawnPid : Option Nat) : RotateStartOut :=
  let logs' := rotateLogFiles now ts logs
  match record with
  | some content =>
    match parseIntJS content with
    | some pid =>
      match os pid with
      | SigResult.ok => ⟨logs', false, some content⟩
      | _ => ⟨logs', true, some (watcherRecordOf spawnPid)⟩
    | none => ⟨logs', true, some (watcherRecordOf spawnPid)⟩
  | none => ⟨logs', true, some (watcherRecordOf spawnPid)⟩

/-- Claim C8: `rotate start` always performs the immediate rotation pass
(also when it returns early); with a recorded watcher pid that probes alive
it spawns nothing and leaves the record untouched; and a second `rotate
start` right after one that spawned a live watcher (nonzero pid `p`) spawns
nothing — no duplicate watcher. -/
theorem claim_C8 (os : Int → SigResult) (now now₂ : Nat) (ts ts₂ : String)
    (logs logs₂ : List (String × (Nat × Nat))) (spawnPid spawnPid₂ : Option Nat)
    (s : String) (pid : Int) (p : Nat)
    (h1 : parseIntJS s = some pid) (h2 : os pid = SigResult.ok)
    (h3 : p ≠ 0) (h4 : os (p : Int) = SigResult.ok) :
    (rotateStart os now ts logs (some s) spawnPid).logs = rotateLogFiles now ts logs
    ∧ (rotateStart os now ts logs none spawnPid).logs = rotateLogFiles now ts logs
    ∧ (rotateStart os now ts logs (some s) spawnPid).didSpawn = false
    ∧ (rotateStart os now ts logs (some s) spawnPid).record = some s
    ∧ (rotateStart os now₂ ts₂ logs₂
        ((rotateStart os now ts logs none (some p)).record) spawnPid₂).didSpawn = false := by
  have hrec : (rotateStart os now ts logs none (some p)).record
      = some (natToString p) := by
    simp [rotateStart, watcherRecordOf, h3]
  refine ⟨?_, rfl, ?_, ?_, ?_⟩
  · simp [rotateStart, h1, h2]
  · simp [rotateStart, h1, h2]
  · simp [rotateStart, h1, h2]
  · rw [hrec]
    simp [rotateStart, parseIntJS_natToString p, h4]

/-- Witness for claim C8 at a concrete live watcher record. -/
theorem claim_C8_witness :
    (rotateStart (fun _ => SigResult.ok) 0 "T" [] (some "42") none).logs
        = rotateLogFiles 0 "T" []
    ∧ (rotateStart (fun _ => SigResult.ok) 0 "T" [] none none).logs
        = rotateLogFiles 0 "T" []
    ∧ (rotateStart (fun _ => SigResult.ok) 0 "T" [] (some "42") none).didSpawn = false
    ∧ (rotateStart (fun _ => SigResult.ok) 0 "T" [] (some "42") none).record = some "42"
    ∧ (rotateStart (fun _ => SigResult.ok) 1 "U" []
        ((rotateStart (fun _ => SigResult.ok) 0 "T" [] none (some 7)).record)
        none).didSpawn = false :=
  claim_C8 (fun _ => SigResult.ok) 0 1 "T" "U" [] [] none none "42" 42 7
    (by decide) rfl (by decide) rfl

/-! ### Slot encoding and name-targeted operations (claim C9) -/

theorem takeWhile_append_stop {p : Char → Bool} :
    ∀ {xs : List Char} {y : Char} {ys : List Char},
    (∀ c ∈ xs, p c = true) → p y = false →
    (xs ++ y :: ys).takeWhile p = xs := by
  intro xs
  induction xs with
  | nil =>
    intro y ys _ hy
    simp [List.takeWhile, hy]
  | cons x xs ih =>
    intro y ys hall hy
    rw [List.cons_append, List.takeWhile]
    rw [hall x (by simp)]
    rw [ih (fun c hc => hall c (by simp [hc])) hy]

theorem slotPidFile_data (name : String) (i : Nat) :
    (slotPidFile name i).data
      = name.data ++ '_' :: (natToDigits i ++ (".pid").data) := by
  simp only [slotPidFile, data_append]
  rw [show (natToString i).data = natToDigits i from rfl]
  simp [List.append_assoc]

theorem baseAppOf_slotPidFile (name : String) (i : Nat)
    (hu : ∀ c ∈ name.data, c ≠ '_') : baseAppOf (slotPidFile name i) = name := by
  rw [baseAppOf]
  apply string_ext
  rw [slotPidFile_data]
  have : ∀ c ∈ name.data, (c != '_') = true := fun c hc => by
    simpa using hu c hc
  rw [takeWhile_append_stop this (by decide)]

theorem noUnderscorePre :
    ∀ (xs ys rest : List Char), xs ≠ ys →
    (∀ c ∈ xs, c ≠ '_') → (∀ c ∈ ys, c ≠ '_') →
    isPrefixL (xs ++ ['_']) (ys ++ '_' :: rest) = false := by
  intro xs
  induction xs with
  | nil =>
    intro ys rest hne hxs hys
    match ys with
    | [] => exact absurd rfl hne
    | y :: ys' =>
      have : (('_' : Char) == y) = false := by
        have := hys y (by simp)
        simp [beq_eq_false_iff_ne]
        exact fun hq => this hq.symm
      simp [isPrefixL, this]
  | cons x xs' ih =>
    intro ys rest hne hxs hys
    match ys with
    | [] =>
      have : ((x : Char) == '_') = false := by
        have := hxs x (by simp)
        simpa [beq_eq_false_iff_ne] using this
      simp [isPrefixL, this]
    | y :: ys' =>
      rw [List.cons_append, List.cons_append, isPrefixL]
      by_cases hxy : x = y
      · subst hxy
        have hne' : xs' ≠ ys' := fun hq => hne (by rw [hq])
        rw [ih ys' rest hne' (fun c hc => hxs c (by simp [hc]))
          (fun c hc => hys c (by simp [hc]))]
        simp
      · have : ((x : Char) == y) = false := beq_eq_false_iff_ne.mpr hxy
        simp [this]

/-- Claim C9 as stated is false: the configured names `"a"` and `"a_b"` are
distinct, yet `stop a` matches `a_b`'s PID record (its `split('_')[0]` base
is `"a"`) and `list`'s prefix filter `startsWith("a_")` matches it too — the
underscore encoding is ambiguous when app names themselves contain
underscores. -/
theorem claim_C9_counterexample :
    ¬ (∀ (a b : String), a ≠ b → ∀ i : Nat,
        stopMatches a (slotPidFile b i) = false
        ∧ pidFileMatches a (slotPidFile b i) = false) := by
  intro h
  exact absurd ((h "a" "a_b" (by decide) 0).1) (by decide)

/-- Claim C9 (amended): provided application names contain no underscore,
are nonempty, and the stop target is not the sentinel `"all"`, the encoding
`<appName>_<index>` is unambiguous: `stop`'s base-name match and the listing
prefix filter select exactly the named application's slot files and never a
different application's; distinct indices give distinct slot files. -/
theorem claim_C9_amended (a b : String) (i j : Nat)
    (hau : ∀ c ∈ a.data, c ≠ '_') (hbu : ∀ c ∈ b.data, c ≠ '_')
    (hane : a ≠ "") (haall : a ≠ "all") :
    stopMatches a (slotPidFile a i) = true
    ∧ pidFileMatches a (slotPidFile a i) = true
    ∧ (a ≠ b → stopMatches a (slotPidFile b i) = false)
    ∧ (a ≠ b → pidFileMatches a (slotPidFile b i) = false)
    ∧ (slotPidFile a i = slotPidFile a j → i = j)
    ∧ (a ≠ b → slotPidFile a i ≠ slotPidFile b j) := by
  have hend : ∀ (nm : String) (k : Nat), strEndsWith (slotPidFile nm k) ".pid" = true := by
    intro nm k
    rw [show slotPidFile nm k = (nm ++ "_" ++ natToString k) ++ ".pid" from rfl]
    exact strEndsWith_append _ _
  have hslot_split : ∀ (nm : String) (k : Nat),
      (slotPidFile nm k).data = (nm.data ++ ['_']) ++ (natToDigits k ++ (".pid").data) := by
    intro nm k
    rw [slotPidFile_data]
    simp
  refine ⟨?_, ?_, fun hab => ?_, fun hab => ?_, slotPidFile_inj, fun hab heq => ?_⟩
  · have hbase := baseAppOf_slotPidFile a i hau
    simp [stopMatches, hend a i, hbase]
  · have hpre : strStartsWith (slotPidFile a i) (a ++ "_") = true := by
      rw [strStartsWith, data_append, show ("_" : String).data = ['_'] from rfl,
        hslot_split a i]
      exact isPrefixL_append _ _
    simp [pidFileMatches, hend a i, hpre]
  · have hbase := baseAppOf_slotPidFile b i hbu
    have h1 : (a == "") = false := beq_eq_false_iff_ne.mpr hane
    have h2 : (a == "all") = false := beq_eq_false_iff_ne.mpr haall
    have h3 : (a == baseAppOf (slotPidFile b i)) = false := by
      rw [hbase]
      exact beq_eq_false_iff_ne.mpr hab
    simp [stopMatches, hend b i, h1, h2, h3]
  · have hdata : a.data ≠ b.data := fun hq => hab (string_ext hq)
    have hpre : strStartsWith (slotPidFile b i) (a ++ "_") = false := by
      rw [strStartsWith, data_append, show ("_" : String).data = ['_'] from rfl,
        slotPidFile_data]
      exact noUnderscorePre a.data b.data _ hdata hau hbu
    simp [pidFileMatches, hpre]
  · have h1 := baseAppOf_slotPidFile a i hau
    have h2 := baseAppOf_slotPidFile b j hbu
    rw [heq, h2] at h1
    exact hab h1.symm

/-- Witness for claim C9's amended theorem at the concrete names `web` and
`db`, instance indices 2 and 3. -/
theorem claim_C9_amended_witness :
    stopMatches "web" (slotPidFile "web" 2) = true
    ∧ pidFileMatches "web" (slotPidFile "web" 2) = true
    ∧ ("web" ≠ "db" → stopMatches "web" (slotPidFile "db" 2) = false)
    ∧ ("web" ≠ "db" → pidFileMatches "web" (slotPidFile "db" 2) = false)
    ∧ (slotPidFile "web" 2 = slotPidFile "web" 3 → 2 = 3)
    ∧ ("web" ≠ "db" → slotPidFile "web" 2 ≠ slotPidFile "db" 3) :=
  claim_C9_amended "web" "db" 2 3 (by decide) (by decide) (by decide) (by decide)

end Spm
